import Mathlib

/-!
# Verification of the mtgpricer narrowing-and-pricing core

Shallow embedding of the search-and-price lookup core of the mtgpricer
repository: the pricing engine (`calculatePricingGrid`), the Settings
defaults, the suggestion LRU cache and debounce scheduler
(`fetchAutocomplete` / `debouncedAutocomplete` / `handleAutocompleteChange`),
the printing index (`processSearchResults`) and the variant selector state
machine (`handleSetSelect` / `handleCollectorNumberSelect` and the
language/finish change handlers).

Modelling conventions:
* JavaScript numbers carrying prices and multipliers are modelled as exact
  rationals (`ℚ`); the properties at issue are arithmetic identities that the
  spec states at this level of precision.
* JavaScript `Map` objects are modelled as association lists in insertion
  order (a `Map` iterates in insertion order, and `delete` + `set` moves a
  key to the end, which is exactly what the LRU cache relies on).
* JavaScript `Set` objects are modelled as duplicate-free lists in insertion
  order.
* `localeCompare` on the ASCII set codes and collector numbers that occur in
  the data is modelled as code-point comparison (`compare` on `String`).
* `null` / `undefined` inputs are modelled as `Option.none`; JavaScript
  truthiness of a string is modelled as comparison with `""`.
-/

namespace MTGPricer

/-! ## Pricing engine -/

/-- The four grading buckets of the pricing grid, in display order. -/
inductive Condition : Type
  | NM
  | EX
  | VG
  | G
deriving DecidableEq

/-- `const conditions = ['NM', 'EX', 'VG', 'G']` -/
def conditions : List Condition := [Condition.NM, Condition.EX, Condition.VG, Condition.G]

/-- The pricing-relevant part of the component settings state:
condition multipliers, buy-cash multipliers and the credit multiplier. -/
structure PricingSettings : Type where
  conditionMultipliers : Condition → ℚ
  buyCashMultipliers : Condition → ℚ
  creditMultiplier : ℚ

/-- The defaults of the `settings` state in the MTGPricer component. -/
def defaultSettings : PricingSettings where
  conditionMultipliers := fun c => match c with
    | Condition.NM => 1
    | Condition.EX => 9/10
    | Condition.VG => 3/4
    | Condition.G => 1/2
  buyCashMultipliers := fun c => match c with
    | Condition.NM => 17/20
    | Condition.EX => 77/100
    | Condition.VG => 3/5
    | Condition.G => 3/10
  creditMultiplier := 13/10

/-- One row of the pricing grid, as pushed by `calculatePricingGrid`. -/
structure PricingRow : Type where
  condition : Condition
  price : ℚ
  buyCash : ℚ
  buyCredit : ℚ
deriving DecidableEq

/-- `calculatePricingGrid(tcgplayerBasePrice)` from the MTGPricer component.
The argument is `Option ℚ`: `none` models a `null`/`undefined` base price,
and the guard `if (!tcgplayerBasePrice) return null` also rejects the falsy
number `0`. -/
def calculatePricingGrid (settings : PricingSettings) (tcgplayerBasePrice : Option ℚ) :
    Option (List PricingRow) :=
  match tcgplayerBasePrice with
  | none => none
  | some b =>
    if b = 0 then none
    else
      some (conditions.map (fun condition =>
        let conditionPrice := b * settings.conditionMultipliers condition
        let buyCash := conditionPrice * settings.buyCashMultipliers condition
        let buyCredit := buyCash * settings.creditMultiplier
        ⟨condition, conditionPrice, buyCash, buyCredit⟩))

/-- C1: for every base price `b` and condition `c`, the grid row produced for
`(b, c)` satisfies `price = b * conditionMultipliers c`,
`buyCash = price * buyCashMultipliers c` and
`buyCredit = buyCash * creditMultiplier`; with the default settings and base
price 100 the NM row is `(100, 85, 110.50)` and the EX row is
`(90, 69.30, 90.09)` (all four rows are computed; no tier logic exists in
`calculatePricingGrid`). -/
theorem pricing_grid_row_formulas :
    (∀ (st : PricingSettings) (b : ℚ) (rows : List PricingRow),
        calculatePricingGrid st (some b) = some rows →
        ∀ r ∈ rows,
          r.price = b * st.conditionMultipliers r.condition ∧
          r.buyCash = r.price * st.buyCashMultipliers r.condition ∧
          r.buyCredit = r.buyCash * st.creditMultiplier) ∧
    calculatePricingGrid defaultSettings (some 100) =
      some [⟨Condition.NM, 100, 85, 221/2⟩,
            ⟨Condition.EX, 90, 693/10, 9009/100⟩,
            ⟨Condition.VG, 75, 45, 117/2⟩,
            ⟨Condition.G, 50, 15, 39/2⟩] := by
  constructor
  · intro st b rows hrows r hr
    rw [calculatePricingGrid] at hrows
    by_cases hb : b = 0
    · simp [hb] at hrows
    · rw [if_neg hb] at hrows
      cases hrows
      simp only [List.mem_map] at hr
      obtain ⟨c, _, rfl⟩ := hr
      exact ⟨rfl, rfl, rfl⟩
  · rw [calculatePricingGrid]
    norm_num [conditions, defaultSettings]

/-- Witness for `pricing_grid_row_formulas`: the default settings at base
price 100 give the EX row the advertised shape. -/
theorem pricing_grid_row_formulas_witness :
    (⟨Condition.EX, 90, 693/10, 9009/100⟩ : PricingRow).price =
        100 * defaultSettings.conditionMultipliers Condition.EX ∧
    (⟨Condition.EX, 90, 693/10, 9009/100⟩ : PricingRow).buyCash =
        (⟨Condition.EX, 90, 693/10, 9009/100⟩ : PricingRow).price *
          defaultSettings.buyCashMultipliers Condition.EX ∧
    (⟨Condition.EX, 90, 693/10, 9009/100⟩ : PricingRow).buyCredit =
        (⟨Condition.EX, 90, 693/10, 9009/100⟩ : PricingRow).buyCash *
          defaultSettings.creditMultiplier :=
  pricing_grid_row_formulas.1 defaultSettings 100
    [⟨Condition.NM, 100, 85, 221/2⟩,
     ⟨Condition.EX, 90, 693/10, 9009/100⟩,
     ⟨Condition.VG, 75, 45, 117/2⟩,
     ⟨Condition.G, 50, 15, 39/2⟩]
    pricing_grid_row_formulas.2
    ⟨Condition.EX, 90, 693/10, 9009/100⟩ (by simp)

/-- C10: `calculatePricingGrid` returns `none` exactly on a missing
(`null`/`undefined`) or zero base price; every nonzero base price yields a
grid of four rows, one per condition in display order. -/
theorem pricing_grid_null_for_falsy_base :
    (∀ st : PricingSettings, calculatePricingGrid st none = none) ∧
    (∀ st : PricingSettings, calculatePricingGrid st (some 0) = none) ∧
    (∀ (st : PricingSettings) (b : ℚ), b ≠ 0 →
        ∃ rows, calculatePricingGrid st (some b) = some rows ∧
          rows.length = 4 ∧ rows.map (fun r => r.condition) = conditions) ∧
    (∀ (st : PricingSettings) (p : Option ℚ) (rows : List PricingRow),
        calculatePricingGrid st p = some rows → ∃ b, p = some b ∧ b ≠ 0) := by
  refine ⟨fun _ => rfl, fun st => by simp [calculatePricingGrid], ?_, ?_⟩
  · intro st b hb
    refine ⟨_, by rw [calculatePricingGrid, if_neg hb], ?_, ?_⟩
    · simp [conditions]
    · simp [conditions]
  · intro st p rows h
    match p with
    | none => exact absurd h (by simp [calculatePricingGrid])
    | some b =>
      refine ⟨b, rfl, ?_⟩
      intro hb
      rw [calculatePricingGrid, if_pos hb] at h
      exact Option.noConfusion h

/-- Witness for `pricing_grid_null_for_falsy_base`: base price 100 with the
default settings produces a four-row grid. -/
theorem pricing_grid_null_for_falsy_base_witness :
    ∃ rows, calculatePricingGrid defaultSettings (some 100) = some rows ∧
      rows.length = 4 ∧ rows.map (fun r => r.condition) = conditions :=
  pricing_grid_null_for_falsy_base.2.2.1 defaultSettings 100 (by norm_num)

/-! ## Suggestion cache

The autocomplete cache `cacheRef.current` is a JavaScript `Map` from query
strings to suggestion lists.  A `Map` iterates in insertion order, so it is
modelled as an association list whose head is the oldest (least recently
used) entry and whose last element is the newest. -/

/-- The suggestion cache: association list in insertion order. -/
abbrev Cache := List (String × List String)

/-- The keys of the cache, in insertion order. -/
def cacheKeys (c : Cache) : List String := c.map (fun e => e.1)

/-- `cache.get(query)` / `cache.has(query)`: lookup by key in the
association list. -/
def cacheGet : Cache → String → Option (List String)
  | [], _ => none
  | e :: rest, q => if e.1 == q then some e.2 else cacheGet rest q

/-- `cache.delete(query)`.  `Map` keys are unique, so removing every entry
with the key is the same as removing the one entry. -/
def cacheDelete (c : Cache) (q : String) : Cache :=
  c.filter (fun e => e.1 != q)

/-- `const maxCacheSize = 50`. -/
def maxCacheSize : Nat := 50

/-- The cache-and-suggestions effect of `fetchAutocomplete(query)`.  The
network is abstracted by `fetchResult`: `some results` for a successful
response (`data.suggestions || []`) and `none` for a failed fetch (the
`catch` branch).  Returns the new cache and the suggestion list passed to
`setSuggestions`. -/
def fetchAutocomplete (c : Cache) (q : String) (fetchResult : Option (List String)) :
    Cache × List String :=
  if q.length < 3 then (c, [])
  else
    match cacheGet c q with
    | some cached => (cacheDelete c q ++ [(q, cached)], cached)
    | none =>
      match fetchResult with
      | some results =>
        let c1 := if maxCacheSize ≤ c.length then c.tail else c
        (c1 ++ [(q, results)], results)
      | none => (c, [])

/-- The cache component of one `fetchAutocomplete` call. -/
def cacheStep (c : Cache) (q : String) (fetchResult : Option (List String)) : Cache :=
  (fetchAutocomplete c q fetchResult).1

/-- The cache after a sequence of `fetchAutocomplete` calls starting from the
empty cache; each element of `ops` is a query together with its abstracted
fetch outcome. -/
def cacheRun (ops : List (String × Option (List String))) : Cache :=
  ops.foldl (fun c op => cacheStep c op.1 op.2) []

theorem cacheGet_eq_none_iff (c : Cache) (q : String) :
    cacheGet c q = none ↔ ∀ kv ∈ c, kv.1 ≠ q := by
  induction c with
  | nil => simp [cacheGet]
  | cons e rest ih =>
    by_cases h : e.1 = q
    · simp [cacheGet, h]
    · simp [cacheGet, h, ih]

theorem cacheGet_append_right (l₁ l₂ : Cache) (q : String)
    (h : ∀ kv ∈ l₁, kv.1 ≠ q) :
    cacheGet (l₁ ++ l₂) q = cacheGet l₂ q := by
  induction l₁ with
  | nil => rfl
  | cons e rest ih =>
    have he : ¬ e.1 = q := h e (by simp)
    rw [List.cons_append, cacheGet, if_neg (by simpa using he)]
    exact ih (fun kv hkv => h kv (by simp [hkv]))

theorem cacheGet_append_left (l₁ l₂ : Cache) (q : String) (v : List String)
    (h : cacheGet l₁ q = some v) :
    cacheGet (l₁ ++ l₂) q = some v := by
  induction l₁ with
  | nil => simp [cacheGet] at h
  | cons e rest ih =>
    by_cases he : e.1 = q
    · rw [cacheGet, if_pos (by simpa using he)] at h
      rw [List.cons_append, cacheGet, if_pos (by simpa using he)]
      exact h
    · rw [cacheGet, if_neg (by simpa using he)] at h
      rw [List.cons_append, cacheGet, if_neg (by simpa using he)]
      exact ih h

theorem cacheGet_singleton (q : String) (v : List String) :
    cacheGet [(q, v)] q = some v := by
  simp [cacheGet]

theorem cacheGet_singleton_ne (k q : String) (v : List String) (h : k ≠ q) :
    cacheGet [(q, v)] k = none := by
  rw [cacheGet, if_neg (by simpa using Ne.symm h)]
  rfl

theorem cacheGet_of_mem_nodup (c : Cache) : ∀ kv : String × List String,
    (cacheKeys c).Nodup → kv ∈ c → cacheGet c kv.1 = some kv.2 := by
  induction c with
  | nil => intro kv _ hmem; simp at hmem
  | cons e rest ih =>
    intro kv hnd hmem
    rw [show cacheKeys (e :: rest) = e.1 :: cacheKeys rest from rfl] at hnd
    obtain ⟨hnotin, hnd2⟩ := List.nodup_cons.mp hnd
    rcases List.mem_cons.mp hmem with rfl | hmem2
    · simp [cacheGet]
    · have he : ¬ e.1 = kv.1 := by
        intro heq
        exact hnotin (heq ▸ List.mem_map.mpr ⟨kv, hmem2, rfl⟩)
      rw [cacheGet, if_neg (by simpa using he)]
      exact ih kv hnd2 hmem2

theorem mem_cacheDelete_ne (c : Cache) (q : String) (kv : String × List String)
    (h : kv ∈ cacheDelete c q) : kv.1 ≠ q := by
  have := (List.mem_filter.mp h).2
  simpa using this

theorem mem_cacheDelete_of_mem (c : Cache) (q : String) (kv : String × List String)
    (hmem : kv ∈ c) (hne : kv.1 ≠ q) : kv ∈ cacheDelete c q :=
  List.mem_filter.mpr ⟨hmem, by simpa using hne⟩

theorem cacheDelete_sublist (c : Cache) (q : String) : (cacheDelete c q).Sublist c :=
  List.filter_sublist c

theorem cacheKeys_nodup_of_sublist (c c' : Cache) (hs : c'.Sublist c)
    (hnd : (cacheKeys c).Nodup) : (cacheKeys c').Nodup := by
  unfold cacheKeys at hnd ⊢
  exact List.Nodup.sublist (List.Sublist.map _ hs) hnd

theorem cacheDelete_length_lt (c : Cache) : ∀ (q : String) (v : List String),
    cacheGet c q = some v → (cacheDelete c q).length < c.length := by
  induction c with
  | nil => intro q v h; simp [cacheGet] at h
  | cons e rest ih =>
    intro q v h
    by_cases he : e.1 = q
    · have h1 : (cacheDelete rest q).length ≤ rest.length :=
        List.Sublist.length_le (cacheDelete_sublist rest q)
      have h2 : (e.1 != q) = false := by simpa using he
      rw [cacheDelete, List.filter_cons, h2]
      simp only [Bool.false_eq_true, if_false, List.length_cons]
      exact Nat.lt_succ_of_le h1
    · rw [cacheGet, if_neg (by simpa using he)] at h
      have h3 := ih q v h
      have h4 : (e.1 != q) = true := by simpa using he
      rw [cacheDelete, List.filter_cons, h4]
      simp only [if_true, List.length_cons]
      simp only [cacheDelete] at h3
      omega

theorem cacheStep_of_short (c : Cache) (q : String) (fr : Option (List String))
    (h : q.length < 3) : cacheStep c q fr = c := by
  unfold cacheStep fetchAutocomplete
  rw [if_pos h]

theorem cacheStep_of_hit (c : Cache) (q : String) (v : List String)
    (fr : Option (List String)) (hq : ¬ q.length < 3) (h : cacheGet c q = some v) :
    cacheStep c q fr = cacheDelete c q ++ [(q, v)] := by
  unfold cacheStep fetchAutocomplete
  rw [if_neg hq, h]

theorem cacheStep_of_miss_success (c : Cache) (q : String) (results : List String)
    (hq : ¬ q.length < 3) (h : cacheGet c q = none) :
    cacheStep c q (some results) =
      (if maxCacheSize ≤ c.length then c.tail else c) ++ [(q, results)] := by
  unfold cacheStep fetchAutocomplete
  rw [if_neg hq, h]

theorem cacheStep_of_miss_failure (c : Cache) (q : String)
    (hq : ¬ q.length < 3) (h : cacheGet c q = none) :
    cacheStep c q none = c := by
  unfold cacheStep fetchAutocomplete
  rw [if_neg hq, h]

theorem cacheKeys_append_singleton (c : Cache) (q : String) (v : List String) :
    cacheKeys (c ++ [(q, v)]) = cacheKeys c ++ [q] := by
  simp [cacheKeys]

theorem cacheKeys_nodup_append_singleton (c : Cache) (q : String) (v : List String)
    (h1 : (cacheKeys c).Nodup) (h2 : q ∉ cacheKeys c) :
    (cacheKeys (c ++ [(q, v)])).Nodup := by
  rw [cacheKeys_append_singleton]
  refine List.Nodup.append h1 (List.nodup_singleton q) ?_
  intro a ha hb
  rw [List.mem_singleton.mp hb] at ha
  exact h2 ha

theorem cacheStep_length_le (c : Cache) (q : String) (fr : Option (List String))
    (h : c.length ≤ maxCacheSize) : (cacheStep c q fr).length ≤ maxCacheSize := by
  by_cases hq : q.length < 3
  · rw [cacheStep_of_short c q fr hq]; exact h
  · rcases hget : cacheGet c q with _ | v
    · rcases fr with _ | results
      · rw [cacheStep_of_miss_failure c q hq hget]; exact h
      · rw [cacheStep_of_miss_success c q results hq hget]
        by_cases hfull : maxCacheSize ≤ c.length
        · rw [if_pos hfull]
          simp only [List.length_append, List.length_cons, List.length_nil,
            List.length_tail]
          simp only [maxCacheSize] at h ⊢
          omega
        · rw [if_neg hfull]
          simp only [List.length_append, List.length_cons, List.length_nil]
          simp only [maxCacheSize] at h hfull ⊢
          omega
    · rw [cacheStep_of_hit c q v fr hq hget]
      have hlt := cacheDelete_length_lt c q v hget
      simp only [List.length_append, List.length_cons, List.length_nil]
      simp only [maxCacheSize] at h ⊢
      omega

theorem cacheStep_nodup (c : Cache) (q : String) (fr : Option (List String))
    (hnd : (cacheKeys c).Nodup) : (cacheKeys (cacheStep c q fr)).Nodup := by
  by_cases hq : q.length < 3
  · rw [cacheStep_of_short c q fr hq]; exact hnd
  · rcases hget : cacheGet c q with _ | v
    · have hq_not : ∀ kv ∈ c, kv.1 ≠ q := (cacheGet_eq_none_iff c q).mp hget
      rcases fr with _ | results
      · rw [cacheStep_of_miss_failure c q hq hget]; exact hnd
      · rw [cacheStep_of_miss_success c q results hq hget]
        have step : ∀ c1 : Cache, c1.Sublist c →
            (cacheKeys (c1 ++ [(q, results)])).Nodup := by
          intro c1 hs
          refine cacheKeys_nodup_append_singleton c1 q results
            (cacheKeys_nodup_of_sublist c c1 hs hnd) ?_
          intro hmem
          obtain ⟨kv, hkv, hk⟩ := List.mem_map.mp hmem
          exact hq_not kv (List.Sublist.mem hkv hs) hk
        by_cases hfull : maxCacheSize ≤ c.length
        · rw [if_pos hfull]; exact step c.tail (List.tail_sublist c)
        · rw [if_neg hfull]; exact step c (List.Sublist.refl c)
    · rw [cacheStep_of_hit c q v fr hq hget]
      refine cacheKeys_nodup_append_singleton _ q v
        (cacheKeys_nodup_of_sublist c _ (cacheDelete_sublist c q) hnd) ?_
      intro hmem
      obtain ⟨kv, hkv, hk⟩ := List.mem_map.mp hmem
      exact mem_cacheDelete_ne c q kv hkv hk

/-- C3: the cache never exceeds 50 entries and its keys stay distinct; when a
successful fetch inserts a new query into a full cache, the oldest
(least-recently-accessed) entry is evicted while all other entries stay
retrievable with their values; a cache hit moves the entry to the
most-recently-used (last) position with its value unchanged and leaves every
other entry retrievable. -/
theorem lru_cache_bound_eviction_promotion :
    (∀ ops : List (String × Option (List String)),
        (cacheRun ops).length ≤ maxCacheSize ∧ (cacheKeys (cacheRun ops)).Nodup) ∧
    (∀ (e : String × List String) (rest : Cache) (q : String) (v : List String),
        (cacheKeys (e :: rest)).Nodup →
        (e :: rest : Cache).length = maxCacheSize →
        cacheGet (e :: rest) q = none →
        3 ≤ q.length →
        cacheGet (cacheStep (e :: rest) q (some v)) e.1 = none ∧
        (∀ kv ∈ rest, cacheGet (cacheStep (e :: rest) q (some v)) kv.1 = some kv.2) ∧
        cacheGet (cacheStep (e :: rest) q (some v)) q = some v ∧
        (cacheStep (e :: rest) q (some v)).length = maxCacheSize) ∧
    (∀ (c : Cache) (q : String) (v : List String) (fr : Option (List String)),
        (cacheKeys c).Nodup →
        cacheGet c q = some v →
        3 ≤ q.length →
        (cacheStep c q fr).getLast? = some (q, v) ∧
        cacheGet (cacheStep c q fr) q = some v ∧
        (∀ kv ∈ c, kv.1 ≠ q → cacheGet (cacheStep c q fr) kv.1 = some kv.2)) := by
  refine ⟨?_, ?_, ?_⟩
  · intro ops
    suffices h : ∀ c : Cache, c.length ≤ maxCacheSize → (cacheKeys c).Nodup →
        (ops.foldl (fun c op => cacheStep c op.1 op.2) c).length ≤ maxCacheSize ∧
        (cacheKeys (ops.foldl (fun c op => cacheStep c op.1 op.2) c)).Nodup by
      exact h [] (by simp [maxCacheSize]) (by simp [cacheKeys])
    induction ops with
    | nil => intro c h1 h2; exact ⟨h1, h2⟩
    | cons op rest ih =>
      intro c h1 h2
      exact ih _ (cacheStep_length_le c op.1 op.2 h1) (cacheStep_nodup c op.1 op.2 h2)
  · intro e rest q v hnd hlen hget hq
    have hsteq : cacheStep (e :: rest) q (some v) = rest ++ [(q, v)] := by
      rw [cacheStep_of_miss_success (e :: rest) q v (by omega) hget,
        if_pos (le_of_eq hlen.symm)]
      rfl
    have hq_not : ∀ kv ∈ (e :: rest : Cache), kv.1 ≠ q := (cacheGet_eq_none_iff _ q).mp hget
    have hnd0 : (e.1 :: cacheKeys rest).Nodup := by
      simpa only [show cacheKeys (e :: rest) = e.1 :: cacheKeys rest from rfl] using hnd
    have hnd' := List.nodup_cons.mp hnd0
    refine ⟨?_, ?_, ?_, ?_⟩
    · rw [hsteq, cacheGet_append_right]
      · exact cacheGet_singleton_ne e.1 q v (hq_not e (by simp))
      · intro kv hkv heq
        exact hnd'.1 (by rw [← heq]; exact List.mem_map.mpr ⟨kv, hkv, rfl⟩)
    · intro kv hkv
      rw [hsteq]
      exact cacheGet_append_left rest _ kv.1 kv.2
        (cacheGet_of_mem_nodup rest kv hnd'.2 hkv)
    · rw [hsteq, cacheGet_append_right]
      · exact cacheGet_singleton q v
      · exact fun kv hkv => hq_not kv (by simp [hkv])
    · rw [hsteq]
      simp only [List.length_append, List.length_singleton]
      simp only [List.length_cons] at hlen
      omega
  · intro c q v fr hnd hget hq
    have hsteq : cacheStep c q fr = cacheDelete c q ++ [(q, v)] :=
      cacheStep_of_hit c q v fr (by omega) hget
    refine ⟨?_, ?_, ?_⟩
    · rw [hsteq]; exact List.getLast?_concat _
    · rw [hsteq, cacheGet_append_right]
      · exact cacheGet_singleton q v
      · exact fun kv hkv => mem_cacheDelete_ne c q kv hkv
    · intro kv hkv hne
      rw [hsteq]
      refine cacheGet_append_left _ _ kv.1 kv.2 ?_
      have hmem : kv ∈ cacheDelete c q := mem_cacheDelete_of_mem c q kv hkv hne
      exact cacheGet_of_mem_nodup _ kv
        (cacheKeys_nodup_of_sublist c _ (cacheDelete_sublist c q) hnd) hmem

/-- A full 49-entry tail used to exercise the eviction case concretely. -/
def lruRest : Cache := (List.range 49).map (fun i => (toString i, []))

/-- Witness for `lru_cache_bound_eviction_promotion`: inserting a 51st
distinct query into a full 50-entry cache evicts the oldest entry. -/
theorem lru_cache_bound_eviction_promotion_witness :
    cacheGet (cacheStep (("oldest", ["s0"]) :: lruRest) "abcd" (some ["s1"])) "oldest" = none :=
  (lru_cache_bound_eviction_promotion.2.1 ("oldest", ["s0"]) lruRest "abcd" ["s1"]
    (by decide) (by decide) (by decide) (by decide)).1

/-! ## Debounce scheduler

`debounceTimeoutRef` holds at most one pending timeout.  It is modelled as
`Option (String × Nat)`: the scheduled query together with the absolute time
at which its fetch would fire.  Time is in abstract units (milliseconds in
the source). -/

/-- The fixed debounce quiet period (`750ms delay as requested`). -/
def debounceDelay : Nat := 750

/-- `debouncedAutocomplete(query)` called at time `now`: clears any previous
timeout and schedules a fetch for `query` at `now + debounceDelay`. -/
def debouncedAutocomplete (q : String) (now : Nat) : Option (String × Nat) :=
  some (q, now + debounceDelay)

/-- Run a burst of timed `debouncedAutocomplete` calls against the single
timeout slot.  Events are processed in time order; before each call, the
pending timeout fires (executing its fetch) if its deadline has passed.
Returns the final pending timeout and the queries whose fetches actually
fired during the burst. -/
def runBurst : Option (String × Nat) → List (String × Nat) →
    Option (String × Nat) × List String
  | d, [] => (d, [])
  | d, (q, t) :: rest =>
    let fired : List String :=
      match d with
      | some (p, deadline) => if deadline ≤ t then [p] else []
      | none => []
    let next := runBurst (debouncedAutocomplete q t) rest
    (next.1, fired ++ next.2)

theorem runBurst_quiet (calls : List (String × Nat)) : ∀ (p : String) (tp : Nat),
    List.Chain (fun a b => b.2 < a.2 + debounceDelay) (p, tp) calls →
    runBurst (some (p, tp + debounceDelay)) calls =
      (some ((calls.getLastD (p, tp)).1, (calls.getLastD (p, tp)).2 + debounceDelay), []) := by
  induction calls with
  | nil => intro p tp _; rfl
  | cons c rest ih =>
    intro p tp hchain
    obtain ⟨q, t⟩ := c
    rw [List.chain_cons] at hchain
    obtain ⟨hlt, hchain'⟩ := hchain
    rw [runBurst]
    have hfired : (if tp + debounceDelay ≤ t then [p] else []) = [] :=
      if_neg (by omega)
    rw [List.getLastD_cons]
    simp only [hfired, List.nil_append]
    rw [show debouncedAutocomplete q t = some (q, t + debounceDelay) from rfl]
    rw [ih q t hchain']

/-- C4: during a burst of `requestSuggestions` calls in which each call
arrives within the 750-unit quiet period of the previous one, every call
cancels the previously scheduled fetch (the single timeout slot is
overwritten), no fetch fires during the burst, and afterwards exactly one
fetch is scheduled, for the last query of the burst. -/
theorem debounce_burst_single_fetch (q0 : String) (t0 : Nat)
    (calls : List (String × Nat))
    (hchain : List.Chain (fun a b => b.2 < a.2 + debounceDelay) (q0, t0) calls) :
    runBurst none ((q0, t0) :: calls) =
      (some ((calls.getLastD (q0, t0)).1, (calls.getLastD (q0, t0)).2 + debounceDelay),
       []) := by
  rw [runBurst]
  simp only [List.nil_append]
  rw [show debouncedAutocomplete q0 t0 = some (q0, t0 + debounceDelay) from rfl]
  rw [runBurst_quiet calls q0 t0 hchain]

/-- Witness for `debounce_burst_single_fetch`: ten calls for ascending
prefixes of one query, ten time units apart, fire nothing and leave only the
tenth query scheduled. -/
theorem debounce_burst_single_fetch_witness :
    runBurst none
      [("lig", 0), ("ligh", 10), ("light", 20), ("lightn", 30), ("lightni", 40),
       ("lightnin", 50), ("lightning", 60), ("lightning ", 70), ("lightning b", 80),
       ("lightning bo", 90)] =
      (some ("lightning bo", 90 + debounceDelay), []) :=
  debounce_burst_single_fetch "lig" 0
    [("ligh", 10), ("light", 20), ("lightn", 30), ("lightni", 40),
     ("lightnin", 50), ("lightning", 60), ("lightning ", 70), ("lightning b", 80),
     ("lightning bo", 90)]
    (by norm_num [List.chain_cons, debounceDelay])

/-! ## Fetch completions and the displayed suggestion list

When a fetch for query `q` resolves, `fetchAutocomplete`'s continuation runs
`setSuggestions(...)` with the fetched (or cached) list.  The continuation
closes over `q` only; it never consults the current content of the search
input. -/

/-- The input-and-suggestions slice of the component state. -/
structure SuggestState : Type where
  searchTerm : String
  suggestions : List String
deriving DecidableEq

/-- The completion of an in-flight `fetchAutocomplete(q)` call arriving when
the component state is `s`: the cache is updated and the suggestion list is
set from the outcome, exactly as in the source `setSuggestions` calls. -/
def completeFetch (c : Cache) (s : SuggestState) (q : String)
    (fetchResult : Option (List String)) : Cache × SuggestState :=
  let out := fetchAutocomplete c q fetchResult
  (out.1, { s with suggestions := out.2 })

/-- C5 counterexample: a stale response is NOT discarded.  With the current
input `"abcd"` showing `["fresh"]`, the late completion of a fetch for the
superseded query `"abc"` overwrites the suggestion list with its own stale
payload even though `"abc"` no longer matches the current input. -/
theorem stale_response_overwrites_counterexample :
    (completeFetch [] ⟨"abcd", ["fresh"]⟩ "abc" (some ["stale"])).2.suggestions
        = ["stale"] ∧
    "abc" ≠ "abcd" ∧
    (["stale"] : List String) ≠ ["fresh"] := by
  refine ⟨?_, by decide, by decide⟩
  rfl

/-- C5 amended: fetch completions carry no staleness guard.  The suggestion
list a completion installs depends only on its own query and fetch outcome,
never on the current input or the previously displayed list; in particular a
successful fetch for a new query always overwrites the displayed list with
its own results (last-resolved response wins). -/
theorem fetch_completion_ignores_current_input :
    (∀ (c : Cache) (term₁ term₂ : String) (sug₁ sug₂ : List String) (q : String)
        (fr : Option (List String)),
        (completeFetch c ⟨term₁, sug₁⟩ q fr).2.suggestions =
          (completeFetch c ⟨term₂, sug₂⟩ q fr).2.suggestions) ∧
    (∀ (c : Cache) (term : String) (sug : List String) (q : String)
        (r : List String),
        3 ≤ q.length → cacheGet c q = none →
        (completeFetch c ⟨term, sug⟩ q (some r)).2.suggestions = r) := by
  constructor
  · intro c term₁ term₂ sug₁ sug₂ q fr
    rfl
  · intro c term sug q r hq hget
    show (fetchAutocomplete c q (some r)).2 = r
    unfold fetchAutocomplete
    rw [if_neg (by omega), hget]

/-- Witness for `fetch_completion_ignores_current_input`: a successful fetch
for `"bolt"` against an empty cache installs its own results regardless of
the input reading `"zzz"`. -/
theorem fetch_completion_ignores_current_input_witness :
    (completeFetch [] ⟨"zzz", ["old"]⟩ "bolt" (some ["Lightning Bolt"])).2.suggestions
      = ["Lightning Bolt"] :=
  fetch_completion_ignores_current_input.2 [] "zzz" ["old"] "bolt" ["Lightning Bolt"]
    (by decide) (by decide)

/-! ## Input changes and the debounce guard -/

/-- The autocomplete-relevant slice of the state touched by
`handleAutocompleteChange`: the search term, the displayed suggestions and
the debounce timeout slot.  (The branch of `handleAutocompleteChange` that
clears stale search results touches only the selection fields, which are
modelled with the variant selector below.) -/
structure AutoState : Type where
  searchTerm : String
  suggestions : List String
  pendingFetch : Option (String × Nat)
deriving DecidableEq

/-- `handleAutocompleteChange(newValue)` at time `now`: records the term;
a truthy (non-empty) value is debounced via `debouncedAutocomplete`, a falsy
(empty) one clears the suggestion list and leaves the timeout slot alone. -/
def handleAutocompleteChange (s : AutoState) (newValue : String) (now : Nat) : AutoState :=
  if newValue ≠ "" then
    { s with searchTerm := newValue, pendingFetch := debouncedAutocomplete newValue now }
  else
    { s with searchTerm := newValue, suggestions := [] }

/-- C9 counterexample: a two-character query does reach the scheduler, and
does not immediately yield an empty suggestion sequence — the previously
displayed list stays until the debounced fetch fires 750 units later. -/
theorem short_query_scheduled_counterexample :
    "ab".length < 3 ∧
    (handleAutocompleteChange ⟨"", ["old"], none⟩ "ab" 0).pendingFetch = some ("ab", 750) ∧
    (handleAutocompleteChange ⟨"", ["old"], none⟩ "ab" 0).suggestions = ["old"] := by
  refine ⟨by decide, ?_, ?_⟩ <;> rfl

/-- C9 amended: the sub-3-character guard lives in the fetch, not in the
input handler.  A query shorter than 3 characters is debounced and scheduled
like any non-empty query, and when its fetch fires it yields the empty
suggestion sequence and leaves the cache untouched; only the empty query
short-circuits immediately, clearing suggestions without cancelling a
pending scheduled fetch. -/
theorem short_query_guard_in_fetch :
    (∀ (c : Cache) (q : String) (fr : Option (List String)),
        q.length < 3 → fetchAutocomplete c q fr = (c, [])) ∧
    (∀ (s : AutoState) (q : String) (now : Nat), q ≠ "" →
        (handleAutocompleteChange s q now).pendingFetch = some (q, now + debounceDelay)) ∧
    (∀ (s : AutoState) (now : Nat),
        (handleAutocompleteChange s "" now).suggestions = [] ∧
        (handleAutocompleteChange s "" now).pendingFetch = s.pendingFetch) := by
  refine ⟨?_, ?_, ?_⟩
  · intro c q fr h
    unfold fetchAutocomplete
    rw [if_pos h]
  · intro s q now h
    unfold handleAutocompleteChange
    rw [if_pos h]
    rfl
  · intro s now
    constructor <;> rfl

/-- Witness for `short_query_guard_in_fetch`: the fetch for the
two-character query `"ab"` returns the untouched cache and no suggestions. -/
theorem short_query_guard_in_fetch_witness :
    fetchAutocomplete [("abc", ["x"])] "ab" (some ["y"]) = ([("abc", ["x"])], []) :=
  short_query_guard_in_fetch.1 [("abc", ["x"])] "ab" (some ["y"]) (by decide)

/-! ## Collector number comparison and sorting

`handleSetSelect` sorts the available collector numbers with
`sort((a, b) => { const numA = parseInt(a, 10); const numB = parseInt(b, 10);
if (!isNaN(numA) && !isNaN(numB)) return numA - numB;
return a.localeCompare(b); })`. -/

/-- The value of the longest leading run of decimal digits; `none` when the
run is empty (JavaScript `parseInt` returns `NaN` then). -/
def leadingDigitsVal (cs : List Char) : Option Nat :=
  let ds := cs.takeWhile Char.isDigit
  if ds.isEmpty then none
  else some (ds.foldl (fun acc c => acc * 10 + (c.toNat - 48)) 0)

/-- JavaScript `parseInt(s, 10)`: skip leading whitespace, read an optional
sign, then parse the longest leading digit run; `NaN` (modelled `none`) when
no digit follows. -/
def parseIntJS (s : String) : Option Int :=
  let cs := s.data.dropWhile (fun c => c == ' ' || c == '\t' || c == '\n' || c == '\r')
  match cs with
  | '-' :: rest => (leadingDigitsVal rest).map (fun n => -(n : Int))
  | '+' :: rest => (leadingDigitsVal rest).map (fun n => (n : Int))
  | _ => (leadingDigitsVal cs).map (fun n => (n : Int))

/-- The collector number comparator from `handleSetSelect`: numeric when
both `parseInt` results are numbers, otherwise `localeCompare` (modelled as
code-point comparison). -/
def collectorCmp (a b : String) : Ordering :=
  match parseIntJS a, parseIntJS b with
  | some numA, some numB => compare numA numB
  | _, _ => compare a b

/-- The comparator as a `Bool` ordering for sorting. -/
def collectorLE (a b : String) : Bool := collectorCmp a b != Ordering.gt

/-- Stable insertion into a sorted list (JavaScript `sort` is stable). -/
def insertSorted {α : Type} (le : α → α → Bool) (x : α) : List α → List α
  | [] => [x]
  | y :: ys => if le x y then x :: y :: ys else y :: insertSorted le x ys

/-- Stable insertion sort with comparator `le`. -/
def sortBy {α : Type} (le : α → α → Bool) (xs : List α) : List α :=
  xs.foldr (insertSorted le) []

/-- The sort performed on `selectedSetInfo.collectorNumbers` in
`handleSetSelect`. -/
def sortCollectorNumbers (xs : List String) : List String := sortBy collectorLE xs

/-- Numeric ordering used by the per-group rule below (with the same
lexicographic fallback, which is unreachable in the all-numeric branch). -/
def numericLE (a b : String) : Bool :=
  match parseIntJS a, parseIntJS b with
  | some numA, some numB => compare numA numB != Ordering.gt
  | _, _ => compare a b != Ordering.gt

/-- Lexicographic ordering on the raw strings. -/
def lexLE (a b : String) : Bool := compare a b != Ordering.gt

/-- The per-group ordering rule as the spec words it: sort numerically when
every value in the group parses as an integer, otherwise sort the whole
group lexicographically on the raw strings (decided per-group, not
per-pair). -/
def specSortPerGroup (xs : List String) : List String :=
  if xs.all (fun s => (parseIntJS s).isSome) then sortBy numericLE xs
  else sortBy lexLE xs

theorem mem_insertSorted (le : String → String → Bool) (x y : String) :
    ∀ l : List String, y ∈ insertSorted le x l ↔ y = x ∨ y ∈ l := by
  intro l
  induction l with
  | nil => simp [insertSorted]
  | cons z zs ih =>
    by_cases h : le x z = true
    · simp [insertSorted, h, List.mem_cons]
    · simp [insertSorted, h, ih, List.mem_cons]
      tauto

theorem mem_sortBy (le : String → String → Bool) (y : String) :
    ∀ xs : List String, y ∈ sortBy le xs ↔ y ∈ xs := by
  intro xs
  induction xs with
  | nil => simp [sortBy]
  | cons x rest ih =>
    rw [show sortBy le (x :: rest) = insertSorted le x (sortBy le rest) from rfl]
    rw [mem_insertSorted]
    simp [ih, List.mem_cons]

theorem insertSorted_congr (le₁ le₂ : String → String → Bool) (x : String) :
    ∀ l : List String, (∀ y ∈ l, le₁ x y = le₂ x y) →
      insertSorted le₁ x l = insertSorted le₂ x l := by
  intro l
  induction l with
  | nil => intro _; rfl
  | cons z zs ih =>
    intro h
    have hz : le₁ x z = le₂ x z := h z (by simp)
    by_cases hle : le₁ x z = true
    · rw [show insertSorted le₁ x (z :: zs) = if le₁ x z then x :: z :: zs
          else z :: insertSorted le₁ x zs from rfl]
      rw [show insertSorted le₂ x (z :: zs) = if le₂ x z then x :: z :: zs
          else z :: insertSorted le₂ x zs from rfl]
      rw [if_pos hle, if_pos (hz ▸ hle)]
    · rw [show insertSorted le₁ x (z :: zs) = if le₁ x z then x :: z :: zs
          else z :: insertSorted le₁ x zs from rfl]
      rw [show insertSorted le₂ x (z :: zs) = if le₂ x z then x :: z :: zs
          else z :: insertSorted le₂ x zs from rfl]
      rw [if_neg hle, if_neg (fun hc => hle (hz.symm ▸ hc))]
      rw [ih (fun y hy => h y (by simp [hy]))]

theorem sortBy_congr (le₁ le₂ : String → String → Bool) :
    ∀ xs : List String, (∀ x ∈ xs, ∀ y ∈ xs, le₁ x y = le₂ x y) →
      sortBy le₁ xs = sortBy le₂ xs := by
  intro xs
  induction xs with
  | nil => intro _; rfl
  | cons x rest ih =>
    intro h
    rw [show sortBy le₁ (x :: rest) = insertSorted le₁ x (sortBy le₁ rest) from rfl]
    rw [show sortBy le₂ (x :: rest) = insertSorted le₂ x (sortBy le₂ rest) from rfl]
    rw [ih (fun a ha b hb => h a (by simp [ha]) b (by simp [hb]))]
    refine insertSorted_congr le₁ le₂ x _ (fun y hy => ?_)
    exact h x (by simp) y (by simp [(mem_sortBy le₂ y rest).mp hy])

/-- C6 counterexample: in the mixed group `{"10", "2", "x"}` the value `"x"`
does not parse as an integer, so the per-group rule demands lexicographic
order `["10", "2", "x"]`; the code's per-pair comparator still compares
`"2"` and `"10"` numerically and produces `["2", "10", "x"]`. -/
theorem per_group_sort_counterexample :
    sortCollectorNumbers ["10", "2", "x"] = ["2", "10", "x"] ∧
    specSortPerGroup ["10", "2", "x"] = ["10", "2", "x"] ∧
    sortCollectorNumbers ["10", "2", "x"] ≠ specSortPerGroup ["10", "2", "x"] := by
  refine ⟨?_, ?_, ?_⟩ <;> decide

/-- C6 amended: the ordering decision is per-pair, not per-group.  When every
value in the group parses as an integer the result coincides with the
per-group numeric sort; but a pair is compared lexicographically exactly when
one of its members fails to parse, so a mixed group interleaves numeric and
lexicographic comparisons instead of falling back to lexicographic order for
the whole group. -/
theorem collector_sort_per_pair :
    (∀ xs : List String, xs.all (fun s => (parseIntJS s).isSome) = true →
        sortCollectorNumbers xs = sortBy numericLE xs ∧
        sortCollectorNumbers xs = specSortPerGroup xs) ∧
    (∀ a b : String, parseIntJS a = none ∨ parseIntJS b = none →
        collectorCmp a b = compare a b) ∧
    (∀ (a b : String) (numA numB : Int),
        parseIntJS a = some numA → parseIntJS b = some numB →
        collectorCmp a b = compare numA numB) := by
  refine ⟨?_, ?_, ?_⟩
  · intro xs hall
    have hcmp : sortCollectorNumbers xs = sortBy numericLE xs := by
      rw [sortCollectorNumbers]
      refine sortBy_congr collectorLE numericLE xs (fun a ha b hb => ?_)
      have hpa := List.all_eq_true.mp hall a ha
      have hpb := List.all_eq_true.mp hall b hb
      obtain ⟨numA, hna⟩ := Option.isSome_iff_exists.mp (by simpa using hpa)
      obtain ⟨numB, hnb⟩ := Option.isSome_iff_exists.mp (by simpa using hpb)
      unfold collectorLE collectorCmp numericLE
      rw [hna, hnb]
    refine ⟨hcmp, ?_⟩
    rw [hcmp]
    unfold specSortPerGroup
    rw [if_pos hall]
  · intro a b h
    unfold collectorCmp
    rcases h with ha | hb
    · rw [ha]
    · rcases hpa : parseIntJS a with _ | numA
      · rfl
      · rw [hb]
  · intro a b numA numB hna hnb
    unfold collectorCmp
    rw [hna, hnb]

/-- Witness for `collector_sort_per_pair`: the all-numeric group
`["2", "10"]` matches the per-group rule, the pair `("x", "2")` is compared
lexicographically, and the pair `("2", "10")` numerically. -/
theorem collector_sort_per_pair_witness :
    sortCollectorNumbers ["2", "10"] = specSortPerGroup ["2", "10"] ∧
    collectorCmp "x" "2" = compare "x" "2" ∧
    collectorCmp "2" "10" = compare (2 : Int) 10 :=
  ⟨(collector_sort_per_pair.1 ["2", "10"] (by decide)).2,
   collector_sort_per_pair.2.1 "x" "2" (Or.inl (by decide)),
   collector_sort_per_pair.2.2 "2" "10" 2 10 (by decide) (by decide)⟩

/-! ## Printing records and the variant selector -/

/-- One printing record as returned by the search service. -/
structure Card : Type where
  name : String
  set_code : String
  set_name : String
  collector_number : String
  lang : String
  finishes : List String
deriving DecidableEq

/-- `(card.collector_number || '').replace(/[★☆✦]/g, '')`. -/
def cleanCollector (s : String) : String :=
  ⟨s.data.filter (fun c => !(c == '★' || c == '☆' || c == '✦'))⟩

/-- Insertion into a JavaScript `Set`, modelled as an ordered duplicate-free
list. -/
def jsSetAdd (xs : List String) (x : String) : List String :=
  if xs.contains x then xs else xs ++ [x]

/-- One entry of the `setMap` built by `processSearchResults`. -/
structure SetGroup : Type where
  code : String
  name : String
  cards : List Card
  collectorNumbers : List String
deriving DecidableEq

/-- One iteration of the grouping loop in `processSearchResults`: create the
group on first sight of the set code, push the card, and add its cleaned
collector number when non-empty. -/
def addCardToGroups (groups : List SetGroup) (card : Card) : List SetGroup :=
  if groups.any (fun g => g.code == card.set_code) then
    groups.map (fun g =>
      if g.code == card.set_code then
        { g with cards := g.cards ++ [card],
                 collectorNumbers :=
                   if cleanCollector card.collector_number ≠ "" then
                     jsSetAdd g.collectorNumbers (cleanCollector card.collector_number)
                   else g.collectorNumbers }
      else g)
  else
    groups ++ [{ code := card.set_code, name := card.set_name, cards := [card],
                 collectorNumbers :=
                   if cleanCollector card.collector_number ≠ "" then
                     [cleanCollector card.collector_number]
                   else [] }]

/-- `a.code.toLowerCase().localeCompare(b.code.toLowerCase())` as a sort
ordering. -/
def setGroupLE (a b : SetGroup) : Bool :=
  compare a.code.toLower b.code.toLower != Ordering.gt

/-- `processSearchResults(cards)`: group by set code, then sort the groups
case-insensitively by code. -/
def processSearchResults (cards : List Card) : List SetGroup :=
  sortBy setGroupLE (cards.foldl addCardToGroups [])

/-- The selector-relevant slice of the MTGPricer component state. -/
structure PricerState : Type where
  searchResults : List Card
  uniqueSets : List SetGroup
  selectedSet : Option SetGroup
  selectedCollectorNumber : String
  selectedCardVersion : Option Card
  selectedLanguage : String
  selectedFinish : String
  availableCollectorNumbers : List String
  availableLanguages : List String
  availableFinishes : List String
deriving DecidableEq

/-- The component state before any search. -/
def initialState : PricerState where
  searchResults := []
  uniqueSets := []
  selectedSet := none
  selectedCollectorNumber := ""
  selectedCardVersion := none
  selectedLanguage := "en"
  selectedFinish := "nonfoil"
  availableCollectorNumbers := []
  availableLanguages := []
  availableFinishes := []

/-- The state right after a successful `performSearch`: results and groups
are installed, all selections reset. -/
def loadedState (cards : List Card) : PricerState :=
  { initialState with searchResults := cards, uniqueSets := processSearchResults cards }

/-- The `searchResults.filter` shared by both selection handlers. -/
def matchingCardsFor (results : List Card) (code num : String) : List Card :=
  results.filter (fun card =>
    card.set_code == code && cleanCollector card.collector_number == num)

/-- `languages.add(card.lang || 'en')` over the matching cards. -/
def collectLanguages (cards : List Card) : List String :=
  cards.foldl (fun acc card => jsSetAdd acc (if card.lang == "" then "en" else card.lang)) []

/-- `card.finishes.forEach(finish => finishes.add(finish))` over the
matching cards. -/
def collectFinishes (cards : List Card) : List String :=
  cards.foldl (fun acc card => card.finishes.foldl jsSetAdd acc) []

/-- The `defaultCard` lookup: the first record matching both defaults. -/
def findDefaultCard (matchingCards : List Card) (defaultLang defaultFinish : String) :
    Option Card :=
  matchingCards.find? (fun card =>
    card.lang == defaultLang && card.finishes.contains defaultFinish)

/-- `setSelectedCardVersion(defaultCard || matchingCards[0])`. -/
def resolvedVersion (matchingCards : List Card) (defaultLang defaultFinish : String) :
    Option Card :=
  match findDefaultCard matchingCards defaultLang defaultFinish with
  | some card => some card
  | none => matchingCards.head?

/-- The body of `if (matchingCards.length > 0)` shared by `handleSetSelect`
and `handleCollectorNumberSelect`: install available languages/finishes, the
smart defaults, and the resolved card version. -/
def applyDefaults (s : PricerState) (matchingCards : List Card) : PricerState :=
  let langArray := collectLanguages matchingCards
  let finishArray := collectFinishes matchingCards
  let defaultLang := if langArray.contains "en" then "en" else langArray.headD ""
  let defaultFinish := if finishArray.contains "nonfoil" then "nonfoil" else finishArray.headD ""
  { s with availableLanguages := langArray,
           availableFinishes := finishArray,
           selectedLanguage := defaultLang,
           selectedFinish := defaultFinish,
           selectedCardVersion := resolvedVersion matchingCards defaultLang defaultFinish }

/-- The reset of the later selection fields (`else` branch of
`handleSetSelect`). -/
def resetLaterSelections (s : PricerState) : PricerState :=
  { s with selectedCollectorNumber := "", selectedCardVersion := none,
           selectedLanguage := "en", selectedFinish := "nonfoil",
           availableLanguages := [], availableFinishes := [] }

/-- Process the matching cards for a freshly selected (set, number) pair:
no-op when nothing matches, otherwise install the defaults. -/
def selectNumberAndDefaults (s : PricerState) (code num : String) : PricerState :=
  if (matchingCardsFor s.searchResults code num).isEmpty then s
  else applyDefaults s (matchingCardsFor s.searchResults code num)

/-- The `if (lowestCollectorNumber)` branch of `handleSetSelect`, keyed on
the head of the sorted collector numbers (`""` is falsy in JavaScript). -/
def handleSetSelectNumbers (s : PricerState) (g : SetGroup) : Option String → PricerState
  | some lowestCollectorNumber =>
    if lowestCollectorNumber = "" then resetLaterSelections s
    else
      selectNumberAndDefaults { s with selectedCollectorNumber := lowestCollectorNumber }
        g.code lowestCollectorNumber
  | none => resetLaterSelections s

/-- `handleSetSelect` once `selectedSetInfo` is found: install the set and
its sorted collector numbers, then auto-advance to the lowest number. -/
def handleSetSelectFound (s : PricerState) (selectedSetInfo : SetGroup) : PricerState :=
  handleSetSelectNumbers
    { s with selectedSet := some selectedSetInfo,
             availableCollectorNumbers :=
               sortCollectorNumbers selectedSetInfo.collectorNumbers }
    selectedSetInfo (sortCollectorNumbers selectedSetInfo.collectorNumbers).head?

/-- `handleSetSelect(setCode)`.  When `uniqueSets.find` misses,
`setSelectedSet(undefined)` runs and nothing else does. -/
def handleSetSelect (s : PricerState) (setCode : String) : PricerState :=
  match s.uniqueSets.find? (fun g => g.code == setCode) with
  | none => { s with selectedSet := none }
  | some selectedSetInfo => handleSetSelectFound s selectedSetInfo

/-- The `if (selectedSet && collectorNumber)` body of
`handleCollectorNumberSelect`, keyed on the selected set. -/
def handleCollectorNumberWithSet (s : PricerState) (num : String) :
    Option SetGroup → PricerState
  | some g => if num ≠ "" then selectNumberAndDefaults s g.code num else s
  | none => s

/-- `handleCollectorNumberSelect(collectorNumber)`: the number is recorded
unconditionally, then processed only when a set is chosen and the number is
truthy. -/
def handleCollectorNumberSelect (s : PricerState) (collectorNumber : String) : PricerState :=
  handleCollectorNumberWithSet { s with selectedCollectorNumber := collectorNumber }
    collectorNumber s.selectedSet

/-- `getCurrentCardVariant()`: the exact four-way match, falling back to the
stored `selectedCardVersion`. -/
def getCurrentCardVariant (s : PricerState) : Option Card :=
  match s.selectedSet with
  | none => s.selectedCardVersion
  | some g =>
    if s.selectedCollectorNumber = "" ∨ s.selectedLanguage = "" ∨ s.selectedFinish = "" then
      s.selectedCardVersion
    else
      match s.searchResults.find? (fun card =>
          card.set_code == g.code &&
          cleanCollector card.collector_number == s.selectedCollectorNumber &&
          card.lang == s.selectedLanguage &&
          card.finishes.contains s.selectedFinish) with
      | some matchingVariant => some matchingVariant
      | none => s.selectedCardVersion

/-- `handleLanguageOrFinishChange()`: refresh the stored version from the
current variant, only when set and collector number are chosen. -/
def handleLanguageOrFinishChange (s : PricerState) : PricerState :=
  if s.selectedSet.isSome ∧ s.selectedCollectorNumber ≠ "" then
    match getCurrentCardVariant s with
    | some currentVariant => { s with selectedCardVersion := some currentVariant }
    | none => s
  else s

/-- The variant selector operations of the claim. -/
inductive SelectorOp : Type
  | chooseSet (setCode : String)
  | chooseCollectorNumber (num : String)
  | setLanguage (lang : String)
  | setFinish (finish : String)
deriving DecidableEq

/-- Apply one operation.  The language/finish `onChange` handlers queue the
field update and then call `handleLanguageOrFinishChange`, which still reads
the pre-event state (React batches state updates within an event); the net
effect is the version refresh computed from the old state plus the new field
value. -/
def applySelectorOp (s : PricerState) : SelectorOp → PricerState
  | SelectorOp.chooseSet code => handleSetSelect s code
  | SelectorOp.chooseCollectorNumber num => handleCollectorNumberSelect s num
  | SelectorOp.setLanguage lang =>
    { handleLanguageOrFinishChange s with selectedLanguage := lang }
  | SelectorOp.setFinish finish =>
    { handleLanguageOrFinishChange s with selectedFinish := finish }

/-- Run a sequence of selector operations. -/
def runSelectorOps (s : PricerState) (ops : List SelectorOp) : PricerState :=
  ops.foldl applySelectorOp s

/-- The prerequisite invariant of the SelectionPath: a collector number only
when a set is chosen, a resolved card version only when both a set and a
collector number are chosen. -/
def PathInv (s : PricerState) : Prop :=
  (s.selectedCollectorNumber ≠ "" → s.selectedSet.isSome) ∧
  (s.selectedCardVersion.isSome → s.selectedSet.isSome ∧ s.selectedCollectorNumber ≠ "")

instance (s : PricerState) : Decidable (PathInv s) :=
  inferInstanceAs (Decidable
    ((s.selectedCollectorNumber ≠ "" → s.selectedSet.isSome) ∧
     (s.selectedCardVersion.isSome → s.selectedSet.isSome ∧ s.selectedCollectorNumber ≠ "")))

/-- The enabling guards enforced by the rendered UI: the collector-number
picker only exists when a set is chosen and offers non-empty numbers; the
set picker only offers codes of the current groups. -/
def selectorOpOk (s : PricerState) : SelectorOp → Bool
  | SelectorOp.chooseSet code => (s.uniqueSets.find? (fun g => g.code == code)).isSome
  | SelectorOp.chooseCollectorNumber num => s.selectedSet.isSome && num != ""
  | SelectorOp.setLanguage _ => true
  | SelectorOp.setFinish _ => true

/-- A trace of operations each of which respects the UI guards. -/
def guardedOps (s : PricerState) : List SelectorOp → Bool
  | [] => true
  | op :: rest => selectorOpOk s op && guardedOps (applySelectorOp s op) rest

theorem pathInv_of_reset (s : PricerState) : PathInv (resetLaterSelections s) := by
  refine ⟨fun h => absurd rfl h, fun h => ?_⟩
  simp [resetLaterSelections] at h

theorem pathInv_of_set_and_number (s : PricerState)
    (h1 : s.selectedSet.isSome) (h2 : s.selectedCollectorNumber ≠ "") : PathInv s :=
  ⟨fun _ => h1, fun _ => ⟨h1, h2⟩⟩

theorem pathInv_selectNumberAndDefaults (s : PricerState) (code num : String)
    (h1 : s.selectedSet.isSome) (h2 : s.selectedCollectorNumber ≠ "") :
    PathInv (selectNumberAndDefaults s code num) := by
  unfold selectNumberAndDefaults
  by_cases hm : (matchingCardsFor s.searchResults code num).isEmpty
  · rw [if_pos hm]; exact pathInv_of_set_and_number s h1 h2
  · rw [if_neg hm]; exact pathInv_of_set_and_number _ h1 h2

theorem pathInv_handleSetSelectFound (s : PricerState) (g : SetGroup) :
    PathInv (handleSetSelectFound s g) := by
  unfold handleSetSelectFound
  rcases hh : (sortCollectorNumbers g.collectorNumbers).head? with _ | lowest
  · exact pathInv_of_reset _
  · by_cases hlow : lowest = ""
    · simp only [handleSetSelectNumbers]
      rw [if_pos hlow]
      exact pathInv_of_reset _
    · simp only [handleSetSelectNumbers]
      rw [if_neg hlow]
      exact pathInv_selectNumberAndDefaults _ g.code lowest rfl hlow

theorem pathInv_handleLanguageOrFinishChange (s : PricerState) (hinv : PathInv s) :
    PathInv (handleLanguageOrFinishChange s) := by
  unfold handleLanguageOrFinishChange
  by_cases hguard : s.selectedSet.isSome ∧ s.selectedCollectorNumber ≠ ""
  · rw [if_pos hguard]
    rcases hv : getCurrentCardVariant s with _ | v
    · exact hinv
    · exact pathInv_of_set_and_number _ hguard.1 hguard.2
  · rw [if_neg hguard]; exact hinv

theorem pathInv_step (s : PricerState) (op : SelectorOp)
    (hinv : PathInv s) (hok : selectorOpOk s op = true) :
    PathInv (applySelectorOp s op) := by
  cases op with
  | chooseSet code =>
    have hok' : (s.uniqueSets.find? (fun g => g.code == code)).isSome = true := hok
    obtain ⟨g, hg⟩ := Option.isSome_iff_exists.mp hok'
    show PathInv (handleSetSelect s code)
    unfold handleSetSelect
    rw [hg]
    exact pathInv_handleSetSelectFound s g
  | chooseCollectorNumber num =>
    simp only [selectorOpOk, Bool.and_eq_true] at hok
    obtain ⟨hset, hnum⟩ := hok
    have hnum' : num ≠ "" := by simpa using hnum
    show PathInv (handleCollectorNumberSelect s num)
    unfold handleCollectorNumberSelect
    obtain ⟨g, hg⟩ := Option.isSome_iff_exists.mp hset
    rw [hg]
    simp only [handleCollectorNumberWithSet]
    rw [if_pos hnum']
    exact pathInv_selectNumberAndDefaults _ g.code num rfl hnum'
  | setLanguage lang =>
    exact pathInv_handleLanguageOrFinishChange s hinv
  | setFinish finish =>
    exact pathInv_handleLanguageOrFinishChange s hinv

/-- C8 amended: the prerequisite invariant holds along every operation
sequence that respects the UI enabling guards (collector numbers only chosen
while a set is selected and non-empty; set codes only chosen from the
current groups), starting from any freshly loaded search.  Without the
guards it fails, see the counterexample. -/
theorem guarded_ops_preserve_path_invariant (cards : List Card)
    (ops : List SelectorOp) (hg : guardedOps (loadedState cards) ops = true) :
    PathInv (runSelectorOps (loadedState cards) ops) := by
  have main : ∀ (ops' : List SelectorOp) (s : PricerState), PathInv s →
      guardedOps s ops' = true → PathInv (runSelectorOps s ops') := by
    intro ops'
    induction ops' with
    | nil => intro s h _; exact h
    | cons op rest ih =>
      intro s h hgd
      simp only [guardedOps, Bool.and_eq_true] at hgd
      exact ih (applySelectorOp s op) (pathInv_step s op h hgd.1) hgd.2
  refine main ops (loadedState cards) ⟨fun h => absurd rfl h, fun h => ?_⟩ hg
  simp [loadedState, initialState] at h

/-- A Japanese nonfoil printing sharing (set, number) with `cardEN`. -/
def cardJA : Card where
  name := "Shock"
  set_code := "lea"
  set_name := "Limited Edition Alpha"
  collector_number := "161"
  lang := "ja"
  finishes := ["nonfoil"]

/-- An English foil printing sharing (set, number) with `cardJA`. -/
def cardEN : Card where
  name := "Shock"
  set_code := "lea"
  set_name := "Limited Edition Alpha"
  collector_number := "161"
  lang := "en"
  finishes := ["foil"]

/-- Witness for `guarded_ops_preserve_path_invariant`: a guarded trace of
all four operation kinds on a two-card search keeps the invariant. -/
theorem guarded_ops_preserve_path_invariant_witness :
    PathInv (runSelectorOps (loadedState [cardJA, cardEN])
      [SelectorOp.chooseSet "lea", SelectorOp.chooseCollectorNumber "161",
       SelectorOp.setLanguage "ja", SelectorOp.setFinish "foil"]) :=
  guarded_ops_preserve_path_invariant [cardJA, cardEN]
    [SelectorOp.chooseSet "lea", SelectorOp.chooseCollectorNumber "161",
     SelectorOp.setLanguage "ja", SelectorOp.setFinish "foil"]
    (by decide)

/-- C8 counterexample: without the UI guards the invariant is violated.
Choosing a collector number with no set chosen records the number while the
set is empty; and choosing an unknown set code clears the set but leaves the
previously chosen collector number in place. -/
theorem path_invariant_counterexample :
    (¬ PathInv (runSelectorOps (loadedState [cardJA, cardEN])
        [SelectorOp.chooseCollectorNumber "161"])) ∧
    (runSelectorOps (loadedState [cardJA, cardEN])
        [SelectorOp.chooseCollectorNumber "161"]).selectedCollectorNumber = "161" ∧
    (runSelectorOps (loadedState [cardJA, cardEN])
        [SelectorOp.chooseCollectorNumber "161"]).selectedSet = none ∧
    (runSelectorOps (loadedState [cardJA, cardEN])
        [SelectorOp.chooseSet "lea", SelectorOp.chooseSet "zzz"]).selectedSet = none ∧
    (runSelectorOps (loadedState [cardJA, cardEN])
        [SelectorOp.chooseSet "lea", SelectorOp.chooseSet "zzz"]).selectedCollectorNumber
      = "161" := by
  refine ⟨?_, ?_, ?_, ?_, ?_⟩ <;> decide

/-- The fallback chain as the spec words it: a record matching both
defaults, else one matching the default language only, else one matching the
default finish only, else the first record of the group. -/
def specResolveVariant (cards : List Card) (defaultLang defaultFinish : String) :
    Option Card :=
  match cards.find? (fun card =>
      card.lang == defaultLang && card.finishes.contains defaultFinish) with
  | some card => some card
  | none =>
    match cards.find? (fun card => card.lang == defaultLang) with
    | some card => some card
    | none =>
      match cards.find? (fun card => card.finishes.contains defaultFinish) with
      | some card => some card
      | none => cards.head?

/-- C7 counterexample: for the group `[cardJA, cardEN]` the handler computes
defaults `en`/`nonfoil`; no record matches both, and the code resolves to
the first record `cardJA` (which does not even match the default language),
while the claimed language-only fallback would resolve to `cardEN`. -/
theorem resolution_fallback_counterexample :
    (runSelectorOps (loadedState [cardJA, cardEN])
        [SelectorOp.chooseSet "lea"]).selectedLanguage = "en" ∧
    (runSelectorOps (loadedState [cardJA, cardEN])
        [SelectorOp.chooseSet "lea"]).selectedFinish = "nonfoil" ∧
    (runSelectorOps (loadedState [cardJA, cardEN])
        [SelectorOp.chooseSet "lea"]).selectedCardVersion = some cardJA ∧
    specResolveVariant [cardJA, cardEN] "en" "nonfoil" = some cardEN ∧
    cardJA ≠ cardEN ∧ cardJA.lang ≠ "en" := by
  refine ⟨?_, ?_, ?_, ?_, ?_, ?_⟩ <;> decide

/-- C7 amended: auto-resolution picks a record matching both the default
language and default finish when one exists; otherwise it falls back
directly to the first record of the group — there is no language-only or
finish-only intermediate fallback. -/
theorem resolution_both_defaults_or_first (matchingCards : List Card)
    (defaultLang defaultFinish : String) :
    (∀ card, findDefaultCard matchingCards defaultLang defaultFinish = some card →
        resolvedVersion matchingCards defaultLang defaultFinish = some card ∧
        card ∈ matchingCards ∧ card.lang = defaultLang ∧
        card.finishes.contains defaultFinish = true) ∧
    (findDefaultCard matchingCards defaultLang defaultFinish = none →
        resolvedVersion matchingCards defaultLang defaultFinish = matchingCards.head?) := by
  constructor
  · intro card h
    have h' : matchingCards.find? (fun card =>
        card.lang == defaultLang && card.finishes.contains defaultFinish) = some card := h
    have hmem := List.mem_of_find?_eq_some h'
    have hp := List.find?_some h'
    simp only [Bool.and_eq_true, beq_iff_eq] at hp
    refine ⟨?_, hmem, hp.1, hp.2⟩
    unfold resolvedVersion
    rw [h]
  · intro h
    unfold resolvedVersion
    rw [h]

/-- Witness for `resolution_both_defaults_or_first`: with no record matching
both defaults, the group `[cardJA, cardEN]` resolves to its first record. -/
theorem resolution_both_defaults_or_first_witness :
    resolvedVersion [cardJA, cardEN] "en" "nonfoil" = ([cardJA, cardEN] : List Card).head? :=
  (resolution_both_defaults_or_first [cardJA, cardEN] "en" "nonfoil").2 (by decide)

/-! ## Pricing tiers (buylist settings)

The Settings component declares `bulkThreshold`, `highEndThreshold` and an
ordered `pricingTiers` list of `{ name, lowerBound, multiplier }`.  The
pricing computation that consumes these declarations is not among the
provided sources (the `calculatePricingGrid` above never reads them); it is
modelled from the spec below. -/

/-- One pricing tier of the Settings `pricingTiers` list. -/
structure PricingTier : Type where
  name : String
  lowerBound : ℚ
  multiplier : ℚ
deriving DecidableEq

/-- The default tier ladder of the Settings component. -/
def defaultPricingTiers : List PricingTier :=
  [⟨"Very Low", 3, 2/25⟩, ⟨"Low", 4, 1/4⟩, ⟨"Mid", 12, 2/5⟩,
   ⟨"Mid-High", 25, 9/20⟩, ⟨"High", 50, 1/2⟩]

/-- `bulkThreshold: 3.0` from the Settings defaults. -/
def defaultBulkThreshold : ℚ := 3

/-- `highEndThreshold: 200.0` from the Settings defaults. -/
def defaultHighEndThreshold : ℚ := 200

/-- Modelled from the spec: the tier scan of §4.4 step 3 — "scanning the
ordered tier sequence for the highest tier whose lowerBoundPrice ≤
conditionPrice" — returns the last tier of the ordered sequence whose lower
bound does not exceed the price.  The tier-consuming code itself is missing
from the provided sources; only its Settings declarations are present. -/
def selectTier : List PricingTier → ℚ → Option PricingTier
  | [], _ => none
  | t :: rest, p =>
    match selectTier rest p with
    | some u => some u
    | none => if t.lowerBound ≤ p then some t else none

/-- Modelled from the spec: the tier-enabled buy-cash computation of §4.4
steps 3-4, missing from the provided sources.  When `conditionPrice` is at
or above the lowest tier's lower bound and below the high-end threshold, the
selected tier's multiplier replaces the flat per-condition buy-cash
multiplier; otherwise the flat multiplier applies. -/
def tieredBuyCash (tiers : List PricingTier)
    (highEnd flatMultiplier conditionPrice : ℚ) : ℚ :=
  match tiers.head? with
  | some t0 =>
    if t0.lowerBound ≤ conditionPrice ∧ conditionPrice < highEnd then
      match selectTier tiers conditionPrice with
      | some t => conditionPrice * t.multiplier
      | none => conditionPrice * flatMultiplier
    else conditionPrice * flatMultiplier
  | none => conditionPrice * flatMultiplier

theorem selectTier_mem_le (tiers : List PricingTier) (p : ℚ) :
    ∀ t, selectTier tiers p = some t → t ∈ tiers ∧ t.lowerBound ≤ p := by
  induction tiers with
  | nil => intro t h; simp [selectTier] at h
  | cons hd rest ih =>
    intro t h
    rcases hr : selectTier rest p with _ | u
    · rw [selectTier, hr] at h
      by_cases hle : hd.lowerBound ≤ p
      · rw [if_pos hle] at h
        injection h with h
        subst h
        exact ⟨by simp, hle⟩
      · rw [if_neg hle] at h
        exact absurd h (by simp)
    · rw [selectTier, hr] at h
      injection h with h
      subst h
      obtain ⟨hm, hle⟩ := ih u hr
      exact ⟨by simp [hm], hle⟩

theorem selectTier_eq_none (tiers : List PricingTier) (p : ℚ) :
    selectTier tiers p = none ↔ ∀ t ∈ tiers, ¬ t.lowerBound ≤ p := by
  induction tiers with
  | nil => simp [selectTier]
  | cons hd rest ih =>
    rcases hr : selectTier rest p with _ | u
    · rw [selectTier, hr]
      by_cases hle : hd.lowerBound ≤ p
      · rw [if_pos hle]
        simp only [List.forall_mem_cons]
        constructor
        · intro h; exact absurd h (by simp)
        · intro h; exact absurd hle h.1
      · rw [if_neg hle]
        simp only [List.forall_mem_cons]
        constructor
        · intro _; exact ⟨hle, ih.mp hr⟩
        · intro _; trivial
    · rw [selectTier, hr]
      obtain ⟨hm, hle⟩ := selectTier_mem_le rest p u hr
      constructor
      · intro h; exact absurd h (by simp)
      · intro h; exact absurd hle (h u (by simp [hm]))

theorem selectTier_maximal (tiers : List PricingTier) (p : ℚ) :
    ∀ t, List.Pairwise (fun a b => a.lowerBound < b.lowerBound) tiers →
      selectTier tiers p = some t →
      ∀ u ∈ tiers, u.lowerBound ≤ p → u.lowerBound ≤ t.lowerBound := by
  induction tiers with
  | nil => intro t _ h; simp [selectTier] at h
  | cons hd rest ih =>
    intro t hord hsel u hu hule
    rw [List.pairwise_cons] at hord
    rcases hr : selectTier rest p with _ | v
    · rw [selectTier, hr] at hsel
      by_cases hle : hd.lowerBound ≤ p
      · rw [if_pos hle] at hsel
        injection hsel with hsel
        subst hsel
        rcases List.mem_cons.mp hu with rfl | hu2
        · exact le_refl _
        · exact absurd hule ((selectTier_eq_none rest p).mp hr u hu2)
      · rw [if_neg hle] at hsel
        exact absurd hsel (by simp)
    · rw [selectTier, hr] at hsel
      injection hsel with hsel
      subst hsel
      rcases List.mem_cons.mp hu with rfl | hu2
      · obtain ⟨hvm, _⟩ := selectTier_mem_le rest p v hr
        exact le_of_lt (hord.1 v hvm)
      · exact ih v hord.2 hr u hu2 hule

theorem selectTier_boundary (tiers : List PricingTier) (p : ℚ) :
    ∀ t ∈ tiers, List.Pairwise (fun a b => a.lowerBound < b.lowerBound) tiers →
      t.lowerBound = p → selectTier tiers p = some t := by
  induction tiers with
  | nil => intro t h; simp at h
  | cons hd rest ih =>
    intro t hmem hord heq
    rw [List.pairwise_cons] at hord
    rcases List.mem_cons.mp hmem with rfl | hmem2
    · have hnone : selectTier rest p = none := by
        rw [selectTier_eq_none]
        intro u hu
        have hlt := hord.1 u hu
        rw [heq] at hlt
        exact not_le.mpr hlt
      rw [selectTier, hnone, if_pos (le_of_eq heq)]
    · have hsel := ih t hmem2 hord.2 heq
      rw [selectTier, hsel]

/-- C2: (spec-modelled) for a condition price at or above the lowest tier's
lower bound and below the high-end threshold, the buy-cash computation uses
the multiplier of the highest tier whose lower bound does not exceed the
condition price, in place of the flat per-condition buy-cash multiplier; and
a condition price exactly equal to a tier's lower bound selects that tier,
not the next-lower one. -/
theorem tier_override_selects_highest_tier (tiers : List PricingTier)
    (highEnd flatMultiplier conditionPrice : ℚ) (t0 : PricingTier)
    (hhead : tiers.head? = some t0)
    (hord : List.Pairwise (fun a b => a.lowerBound < b.lowerBound) tiers)
    (hlow : t0.lowerBound ≤ conditionPrice) (hhigh : conditionPrice < highEnd) :
    (∃ t ∈ tiers, t.lowerBound ≤ conditionPrice ∧
        (∀ u ∈ tiers, u.lowerBound ≤ conditionPrice → u.lowerBound ≤ t.lowerBound) ∧
        tieredBuyCash tiers highEnd flatMultiplier conditionPrice =
          conditionPrice * t.multiplier) ∧
    (∀ t ∈ tiers, t.lowerBound = conditionPrice →
        selectTier tiers conditionPrice = some t) := by
  have ht0mem : t0 ∈ tiers := by
    cases tiers with
    | nil => exact absurd hhead (by simp)
    | cons a rest =>
      injection hhead with hhead
      subst hhead
      simp
  constructor
  · rcases hsel : selectTier tiers conditionPrice with _ | t
    · exact absurd hlow ((selectTier_eq_none tiers conditionPrice).mp hsel t0 ht0mem)
    · obtain ⟨hmem, hle⟩ := selectTier_mem_le tiers conditionPrice t hsel
      refine ⟨t, hmem, hle, selectTier_maximal tiers conditionPrice t hord hsel, ?_⟩
      have hunf : tieredBuyCash tiers highEnd flatMultiplier conditionPrice =
          if t0.lowerBound ≤ conditionPrice ∧ conditionPrice < highEnd then
            match selectTier tiers conditionPrice with
            | some u => conditionPrice * u.multiplier
            | none => conditionPrice * flatMultiplier
          else conditionPrice * flatMultiplier := by
        unfold tieredBuyCash
        rw [hhead]
      rw [hunf, if_pos ⟨hlow, hhigh⟩, hsel]
  · intro t hmem heq
    exact selectTier_boundary tiers conditionPrice t hmem hord heq

/-- Witness for `tier_override_selects_highest_tier`: with the default tier
ladder, flat multiplier 0.85 and condition price 12 (exactly the Mid tier's
lower bound), the Mid tier is selected. -/
theorem tier_override_selects_highest_tier_witness :
    (∃ t ∈ defaultPricingTiers, t.lowerBound ≤ (12 : ℚ) ∧
        (∀ u ∈ defaultPricingTiers, u.lowerBound ≤ (12 : ℚ) →
            u.lowerBound ≤ t.lowerBound) ∧
        tieredBuyCash defaultPricingTiers defaultHighEndThreshold (17/20) 12 =
          12 * t.multiplier) ∧
    (∀ t ∈ defaultPricingTiers, t.lowerBound = (12 : ℚ) →
        selectTier defaultPricingTiers 12 = some t) :=
  tier_override_selects_highest_tier defaultPricingTiers defaultHighEndThreshold
    (17/20) 12 ⟨"Very Low", 3, 2/25⟩ rfl
    (by norm_num [defaultPricingTiers, List.pairwise_cons])
    (by norm_num) (by norm_num [defaultHighEndThreshold])

end MTGPricer
